import Mathlib

/-!
Verification development for the `purefb2` body-text normalization pipeline
(`src/Lib/fb2/purefb2.py`).

The pipeline is `process_replaces(body, replaces)` where `replaces` is the
ordered rule list built by `PureFb2.__optimize_global` (purefb2.py lines
752-894).  Each rule is `[pattern, replacement, flags?, mode?]`; a rule with
mode `'UNTIL_FOUND'` is re-applied in a `while re.search(...)` loop, all other
rules run as a single `re.sub` sweep (purefb2.py lines 193-205).

Strings are modelled as `List Char`.  Each regex rule of the source is
hand-compiled to a matcher `TryFun` that, at one scan position, either fails
or returns the replacement text together with the number of matched
characters; a generic scanner (`subGo` / `searchGo`) then reproduces
`re.sub` (replace all non-overlapping matches, left to right, continuing
after each match in the original text) and `re.search`.  One-character
lookbehinds receive the previous original character; the `^` anchors of the
image rule receive the absolute position.  Python's `re` loops have no
iteration cap, so `UNTIL_FOUND` loops are modelled with explicit fuel and an
`Option` result: `none` means the loop was still running when the fuel ran
out; termination of the Python loop is `∃ fuel` making the result `some`.
-/

namespace PureFb2

abbrev Text := List Char

/-! ### Glyph tables (purefb2.py lines 23-39) -/

def WHSP : Char := ' '
def NBSP : Char := '\u00A0'
def NNBSP : Char := '\u202F'
def THNSP : Char := '\u2009'

def HMINUS : Char := '-'
def MINUS : Char := '−'
def FDASH : Char := '‒'
def NDASH : Char := '–'
def MDASH : Char := '—'

/-- MDASH_PAIR = NBSP + MDASH + WHSP (purefb2.py line 37). -/
def mdashPair : Text := [NBSP, MDASH, WHSP]

/-- membership in the character class `ANYSP` (purefb2.py line 27). -/
def isAnySP (c : Char) : Bool :=
  c == WHSP || c == NBSP || c == NNBSP || c == THNSP

/-- membership in the character class `ANYDASH` (purefb2.py line 35). -/
def isAnyDash (c : Char) : Bool :=
  c == HMINUS || c == MINUS || c == FDASH || c == NDASH || c == MDASH

/-- membership in the class of `ANYSUB` separator characters
`[\*_~\-−‒–—]` (purefb2.py line 39). -/
def isSubChar (c : Char) : Bool :=
  c == '*' || c == '_' || c == '~' || isAnyDash c

/-- Python `\s` on `str` patterns: ASCII whitespace, the C1 file/group/record
separators, and the Unicode whitespace code points. -/
def isPySpace (c : Char) : Bool :=
  c == ' ' || c == '\t' || c == '\n' || c == '\u000B' || c == '\u000C' ||
  c == '\r' || c == '\u001C' || c == '\u001D' || c == '\u001E' ||
  c == '\u001F' || c == '\u0085' || c == '\u00A0' || c == '\u1680' ||
  ('\u2000' ≤ c && c ≤ '\u200A') ||
  c == '\u2028' || c == '\u2029' || c == '\u202F' || c == '\u205F' ||
  c == '\u3000'

/-- membership in the class `[<A-ZА-ЯҐІЇЄ\.,\'«"]` of the dash rules
(purefb2.py lines 784-785). -/
def isDashFollower (c : Char) : Bool :=
  c == '<' || ('A' ≤ c && c ≤ 'Z') || ('А' ≤ c && c ≤ 'Я') ||
  c == 'Ґ' || c == 'І' || c == 'Ї' || c == 'Є' ||
  c == '.' || c == ',' || c == '\'' || c == '«' || c == '"'

/-! ### Generic matching helpers -/

/-- length of the longest prefix of `s` whose characters satisfy `p`. -/
def runLen (p : Char → Bool) : Text → Nat
  | [] => 0
  | c :: s => if p c then runLen p s + 1 else 0

/-- `pat` is a literal prefix of `s` (case-sensitive). -/
def isLit : Text → Text → Bool
  | [], _ => true
  | _ :: _, [] => false
  | p :: ps, c :: cs => p == c && isLit ps cs

/-- `pat` is a prefix of `s` up to ASCII case (Python `re.IGNORECASE`). -/
def isLitCI : Text → Text → Bool
  | [], _ => true
  | _ :: _, [] => false
  | p :: ps, c :: cs => p.toLower == c.toLower && isLitCI ps cs

/-- first pattern of `pats` (a regex alternation, tried in order) that is a
case-insensitive prefix of `s`. -/
def firstAltCI (pats : List Text) (s : Text) : Option Text :=
  match pats with
  | [] => none
  | p :: ps => if isLitCI p s then some p else firstAltCI ps s

/-- first pattern of `pats` (a regex alternation, tried in order) that is a
case-sensitive prefix of `s`. -/
def firstAltCS (pats : List Text) (s : Text) : Option Text :=
  match pats with
  | [] => none
  | p :: ps => if isLit p s then some p else firstAltCS ps s

/-- the inline-tag alternation `strong|emphasis|strikethrough|sup|sub|code`
used by purefb2.py lines 804-812. -/
def inlineTags : List Text :=
  [String.toList "strong", String.toList "emphasis",
   String.toList "strikethrough", String.toList "sup",
   String.toList "sub", String.toList "code"]

/-- a one-character positive lookbehind test: the previous character exists
and lies in `cs`. -/
def prevIn (cs : List Char) : Option Char → Bool
  | some c => cs.contains c
  | none => false

/-- a one-character lookbehind test against a character class. -/
def prevSat (p : Char → Bool) : Option Char → Bool
  | some c => p c
  | none => false

/-! ### The scan engine

A compiled rule is a `TryFun`: given the absolute position, the previous
original character (for one-character lookbehinds) and the remaining text, it
returns `none` (no match starting here) or `some (replacement, k)` where `k ≥ 1`
is the number of matched characters.  `subGo` mirrors `re.sub`: it replaces
every non-overlapping match, scanning left to right, continuing after each
match in the original text.  `searchGo` mirrors `re.search`.  Fuel decreases
once per scan step; every step consumes at least one character, so fuel
`length + 1` is always sufficient. -/

abbrev TryFun := Nat → Option Char → Text → Option (Text × Nat)

/-- last character of the first `k` characters of `s`, as the new lookbehind
context after a match of length `k`. -/
def lastOfTake (k : Nat) (s : Text) : Option Char :=
  (s.take k).getLast?

def subGo (t : TryFun) : Nat → Nat → Option Char → Text → Text
  | 0, _, _, s => s
  | _ + 1, _, _, [] => []
  | fuel + 1, pos, prev, c :: rest =>
    match t pos prev (c :: rest) with
    | some (r, k) =>
      r ++ subGo t fuel (pos + k) (lastOfTake k (c :: rest)) ((c :: rest).drop k)
    | none => c :: subGo t fuel (pos + 1) (some c) rest

/-- `re.sub(pattern, repl, s)` for the compiled rule `t`. -/
def ruleSub (t : TryFun) (s : Text) : Text :=
  subGo t (s.length + 1) 0 none s

def searchGo (t : TryFun) : Nat → Nat → Option Char → Text → Bool
  | 0, _, _, _ => false
  | _ + 1, pos, prev, [] => (t pos prev []).isSome
  | fuel + 1, pos, prev, c :: rest =>
    (t pos prev (c :: rest)).isSome || searchGo t fuel (pos + 1) (some c) rest

/-- `re.search(pattern, s)` (as a Bool) for the compiled rule `t`. -/
def ruleSearch (t : TryFun) (s : Text) : Bool :=
  searchGo t (s.length + 1) 0 none s

/-- rule mode: plain single sweep, or `'UNTIL_FOUND'` (purefb2.py line 200). -/
inductive RuleMode where
  | once
  | untilFound
deriving DecidableEq

/-- a compiled rewrite rule. -/
structure CRule where
  tf : TryFun
  mode : RuleMode

/-- the `while re.search(...): data = re.sub(...)` loop of `process_replaces`
(purefb2.py lines 201-202), observed up to `fuel` iterations: `none` means the
loop had not finished after `fuel` substitutions. -/
def loopUF (t : TryFun) : Nat → Text → Option Text
  | 0, s => if ruleSearch t s then none else some s
  | fuel + 1, s => if ruleSearch t s then loopUF t fuel (ruleSub t s) else some s

/-- one rule application inside `process_replaces`, with explicit fuel for an
`UNTIL_FOUND` loop. -/
def applyCRuleFuel (fuel : Nat) (r : CRule) (s : Text) : Option Text :=
  match r.mode with
  | .once => some (ruleSub r.tf s)
  | .untilFound => loopUF r.tf fuel s

def runRulesFuel (fuel : Nat) : List CRule → Text → Option Text
  | [], s => some s
  | r :: rs, s => (applyCRuleFuel fuel r s).bind (runRulesFuel fuel rs)

/-- `process_replaces(data, replaces)` (purefb2.py lines 193-205) with every
`UNTIL_FOUND` loop observed up to `fuel` iterations.  Like the source, an
empty input skips all rules (`if data:`). -/
def processReplacesFuel (fuel : Nat) (rs : List CRule) (s : Text) : Option Text :=
  if s.isEmpty then some s else runRulesFuel fuel rs s

/-- the Python `while` loop of `process_replaces` never terminates on `s` for
the rule list `rs`: no amount of fuel completes the run. -/
def divergesOn (rs : List CRule) (s : Text) : Prop :=
  ∀ fuel, processReplacesFuel fuel rs s = none

/-- one rule application where an `UNTIL_FOUND` loop gets fuel `length + 1`
at loop entry; enough whenever each substitution strictly shrinks the text. -/
def applyCRule (r : CRule) (s : Text) : Option Text :=
  match r.mode with
  | .once => some (ruleSub r.tf s)
  | .untilFound => loopUF r.tf (s.length + 1) s

def runRules : List CRule → Text → Option Text
  | [], s => some s
  | r :: rs, s => (applyCRule r s).bind (runRules rs)

/-- `process_replaces(data, replaces)` with length-based fuel for the
`UNTIL_FOUND` loops. -/
def processReplaces (rs : List CRule) (s : Text) : Option Text :=
  if s.isEmpty then some s else runRules rs s

/-! ### The rules of `__optimize_global`, in source order

Each `TryFun` below is the hand compilation of one `replaces.append(...)`
line of purefb2.py.  Backtracking of greedy/lazy quantifiers is resolved
statically where the pattern allows only one outcome (noted per rule). -/

/-- line 779: `(?<!ANYDASH)ANYDASH{2}(?!ANYDASH)` → `MDASH`. -/
def tryDash2 : TryFun := fun _ prev s =>
  match s with
  | d1 :: d2 :: rest =>
    if isAnyDash d1 && isAnyDash d2 && !(prevSat isAnyDash prev) &&
       !(match rest with | c :: _ => isAnyDash c | [] => false) then
      some ([MDASH], 2)
    else none
  | _ => none

/-- line 782: `ANYSP ANYDASH ANYSP` → `MDASH_PAIR`. -/
def trySpDashSp : TryFun := fun _ _ s =>
  match s with
  | a :: d :: b :: _ =>
    if isAnySP a && isAnyDash d && isAnySP b then some (mdashPair, 3) else none
  | _ => none

/-- line 783: `<p>ANYDASH ANYSP` → `<p>MDASH NBSP`. -/
def tryPOpenDash : TryFun := fun _ _ s =>
  match s with
  | '<' :: 'p' :: '>' :: d :: a :: _ =>
    if isAnyDash d && isAnySP a then some (['<', 'p', '>', MDASH, NBSP], 5)
    else none
  | _ => none

/-- line 784: `>ANYDASH([<A-ZА-ЯҐІЇЄ\.,\'«"])` → `>MDASH NBSP \1`. -/
def tryGtDash : TryFun := fun _ _ s =>
  match s with
  | '>' :: d :: c :: _ =>
    if isAnyDash d && isDashFollower c then some (['>', MDASH, NBSP, c], 3)
    else none
  | _ => none

/-- line 785: `(ANYSP ANYDASH [<A-ZА-ЯҐІЇЄ\.,\'«"])` → `MDASH NBSP \g<1>`.
Group 1 is the whole match, so the replacement re-emits the matched
whitespace, dash and follower after the inserted `MDASH NBSP`. -/
def trySpDashUpper : TryFun := fun _ _ s =>
  match s with
  | a :: d :: c :: _ =>
    if isAnySP a && isAnyDash d && isDashFollower c then
      some ([MDASH, NBSP, a, d, c], 3)
    else none
  | _ => none

/-- membership in the class `[b|i|u|s]` (which contains the literal `|`),
case-insensitively (purefb2.py lines 788-789 use `re.IGNORECASE`). -/
def isBiusChar (c : Char) : Bool :=
  let l := c.toLower
  l == 'b' || l == '|' || l == 'i' || l == 'u' || l == 's'

/-- tail of the lazy `([\s\S]*?)</\1>` of line 788: the shortest middle part
followed by `</c>` (backreference, case-insensitive).  Returns the middle
part and the length from here through the closing tag. -/
def biusFindClose (c : Char) : Text → Option (Text × Nat)
  | [] => none
  | x :: rest =>
    if (match x :: rest with
        | '<' :: '/' :: c' :: '>' :: _ => c'.toLower == c.toLower
        | _ => false) then
      some ([], 4)
    else (biusFindClose c rest).map fun (mid, n) => (x :: mid, n + 1)

/-- line 788: `<([b|i|u|s])>([\s\S]*?)</\1>` → `\g<2>` (IGNORECASE). -/
def tryBiusPair : TryFun := fun _ _ s =>
  match s with
  | '<' :: c :: '>' :: rest =>
    if isBiusChar c then (biusFindClose c rest).map fun (mid, n) => (mid, 3 + n)
    else none
  | _ => none

/-- line 789: `<([b|i|u|s])\s*/>` → `` (IGNORECASE). -/
def tryBiusSelf : TryFun := fun _ _ s =>
  match s with
  | '<' :: c :: rest =>
    if isBiusChar c then
      let w := runLen isPySpace rest
      match rest.drop w with
      | '/' :: '>' :: _ => some ([], 2 + w + 2)
      | _ => none
    else none
  | _ => none

/-- line 804: `<(?:strong|emphasis|strikethrough|sup|sub|code)\s*/>` → one
space (IGNORECASE). -/
def tryInlineSelf : TryFun := fun _ _ s =>
  match s with
  | '<' :: rest =>
    match firstAltCI inlineTags rest with
    | some tag =>
      let rest2 := rest.drop tag.length
      let w := runLen isPySpace rest2
      match rest2.drop w with
      | '/' :: '>' :: _ => some ([' '], 1 + tag.length + w + 2)
      | _ => none
    | none => none
  | _ => none

/-- line 806 (UNTIL_FOUND): `<(strong|emphasis|strikethrough|sup|sub|code)>\s*</\1>`
→ one space (IGNORECASE).  The backreference compares case-insensitively,
which is equivalent to comparing against the alternation pattern again. -/
def tryEmptyInline : TryFun := fun _ _ s =>
  match s with
  | '<' :: rest =>
    match firstAltCI inlineTags rest with
    | some tag =>
      match rest.drop tag.length with
      | '>' :: rest2 =>
        let w := runLen isPySpace rest2
        match rest2.drop w with
        | '<' :: '/' :: rest3 =>
          if isLitCI tag rest3 then
            match rest3.drop tag.length with
            | '>' :: _ => some ([' '], 2 * tag.length + w + 5)
            | _ => none
          else none
        | _ => none
      | _ => none
    | none => none
  | _ => none

/-- membership in the class `[\s\.!\?,:]` of lines 809-812. -/
def isPunctCls (c : Char) : Bool :=
  isPySpace c || c == '.' || c == '!' || c == '?' || c == ',' || c == ':'

/-- tail of the quote rules of lines 809-812: greedy `(.*)` (no newline,
longest first), then `</tag>` (case-insensitive), then greedy
`([\s\.!\?,:]*)`, then the closing delimiter `q`.  Returns group 4 (the
middle), group 5 (the punctuation run) and the length from here through `q`.
The punctuation class excludes `"`/`'`/`»`, so the greedy run before `q` is
exactly the maximal run. -/
def quoteFindTail (q : Char) (tag : Text) : Text → Option (Text × Text × Nat)
  | [] => none
  | x :: rest =>
    let deeper : Option (Text × Text × Nat) :=
      if x == '\n' then none
      else (quoteFindTail q tag rest).map fun (g4, g5, n) => (x :: g4, g5, n + 1)
    match deeper with
    | some r => some r
    | none =>
      match x :: rest with
      | '<' :: '/' :: r2 =>
        if isLitCI tag r2 then
          match r2.drop tag.length with
          | '>' :: r3 =>
            let pw := runLen isPunctCls r3
            match r3.drop pw with
            | c :: _ =>
              if c == q then some ([], r3.take pw, 2 + tag.length + 1 + pw + 1)
              else none
            | [] => none
          | _ => none
        else none
      | _ => none

/-- lines 809-810 (UNTIL_FOUND):
`(["\'])(\s*)<(strong|...)>(.*)</\3>([\s\.!\?,:]*)\1` →
`\g<2><\g<3>>\g<1>\g<4>\g<1></\g<3>>\g<5>` (IGNORECASE). -/
def tryQuoteTag : TryFun := fun _ _ s =>
  match s with
  | q :: rest =>
    if q == '"' || q == '\'' then
      let w := runLen isPySpace rest
      let g2 := rest.take w
      match rest.drop w with
      | '<' :: rest2 =>
        match firstAltCI inlineTags rest2 with
        | some tag =>
          match rest2.drop tag.length with
          | '>' :: rest3 =>
            (quoteFindTail q tag rest3).map fun (g4, g5, n) =>
              (g2 ++ '<' :: (tag ++ '>' :: q :: (g4 ++ q :: '<' :: '/' ::
                 (tag ++ '>' :: g5))),
               1 + w + 1 + tag.length + 1 + n)
          | _ => none
        | none => none
      | _ => none
    else none
  | _ => none

/-- lines 811-812 (UNTIL_FOUND):
`«(\s*)<(strong|...)>(.*)</\2>([\s\.!\?,:]*)»` →
`\g<1><\g<2>>«\g<3>»</\g<2>>\g<4>` (IGNORECASE). -/
def tryGuillemetTag : TryFun := fun _ _ s =>
  match s with
  | '«' :: rest =>
    let w := runLen isPySpace rest
    let g1 := rest.take w
    match rest.drop w with
    | '<' :: rest2 =>
      match firstAltCI inlineTags rest2 with
      | some tag =>
        match rest2.drop tag.length with
        | '>' :: rest3 =>
          (quoteFindTail '»' tag rest3).map fun (g3, g4, n) =>
            (g1 ++ '<' :: (tag ++ '>' :: '«' :: (g3 ++ '»' :: '<' :: '/' ::
               (tag ++ '>' :: g4))),
             1 + w + 1 + tag.length + 1 + n)
        | _ => none
      | none => none
    | _ => none
  | _ => none

/-- line 815: `ANYSP{2, }` → one space.  Python's `re` does not read `{2, }`
(with the inner space) as a counted repetition: the braces are parsed as
literal characters.  The compiled pattern is therefore one `ANYSP` character
followed by the five literal characters `\x7b2, \x7d`. -/
def tryWsCollapse : TryFun := fun _ _ s =>
  match s with
  | a :: '\x7B' :: '2' :: ',' :: ' ' :: '\x7D' :: _ =>
    if isAnySP a then some ([' '], 6) else none
  | _ => none

/-- line 818: `(?<![\.\?\!])\.{2,5}(?!\.)` → `…`.  With a maximal run of `r`
dots here, the greedy counted repetition with its trailing `(?!\.)` matches
exactly when `2 ≤ r ≤ 5` (for `r ≥ 6` every repetition count from 5 down to
2 leaves a dot ahead), consuming the whole run. -/
def tryDots : TryFun := fun _ prev s =>
  let r := runLen (· == '.') s
  if !(prevIn ['.', '?', '!'] prev) && 2 ≤ r && r ≤ 5 then some (['…'], r)
  else none

/-- line 822: `(?:,…|…,)` → `…`. -/
def tryCommaEllipsis : TryFun := fun _ _ s =>
  match s with
  | ',' :: '…' :: _ => some (['…'], 2)
  | '…' :: ',' :: _ => some (['…'], 2)
  | _ => none

/-- line 823: `(?<!\?)\?{3,5}(?!\?)` → `???` (same run analysis as the dots
rule). -/
def tryQ35 : TryFun := fun _ prev s =>
  let r := runLen (· == '?') s
  if !(prevIn ['?'] prev) && 3 ≤ r && r ≤ 5 then some (['?', '?', '?'], r)
  else none

/-- line 824: `(?<!\?)\?\?(?!\?)` → `⁇`. -/
def tryQ2 : TryFun := fun _ prev s =>
  match s with
  | '?' :: '?' :: rest =>
    if !(prevIn ['?'] prev) &&
       !(match rest with | c :: _ => c == '?' | [] => false) then
      some (['⁇'], 2)
    else none
  | _ => none

/-- line 825: `(?<!\!)\!{3,5}(?!\!)` → `!!!`. -/
def tryE35 : TryFun := fun _ prev s =>
  let r := runLen (· == '!') s
  if !(prevIn ['!'] prev) && 3 ≤ r && r ≤ 5 then some (['!', '!', '!'], r)
  else none

/-- line 826: `(?<!\!)!!(?<!\!)` → `‼`.  The trailing assertion is a
negative lookbehind, not a lookahead: after the two `!` are consumed it
inspects the character just before the current position, which is the second
matched `!` itself, so the assertion always fails and this rule never
matches.  Compiled literally. -/
def tryE2 : TryFun := fun _ prev s =>
  match s with
  | '!' :: '!' :: _ =>
    let lastMatched : Char := '!'
    if !(prevIn ['!'] prev) && !(lastMatched == '!') then some (['‼'], 2)
    else none
  | _ => none

/-- line 827: `(?<![\?\!])\!\?(?![\?\!])` → `⁉`. -/
def tryBangQ : TryFun := fun _ prev s =>
  match s with
  | '!' :: '?' :: rest =>
    if !(prevIn ['?', '!'] prev) &&
       !(match rest with | c :: _ => c == '?' || c == '!' | [] => false) then
      some (['⁉'], 2)
    else none
  | _ => none

/-- line 828: `(?<![\?\!])\?\!(?![\?\!])` → `⁈`. -/
def tryQBang : TryFun := fun _ prev s =>
  match s with
  | '?' :: '!' :: rest =>
    if !(prevIn ['?', '!'] prev) &&
       !(match rest with | c :: _ => c == '?' || c == '!' | [] => false) then
      some (['⁈'], 2)
    else none
  | _ => none

/-- line 832: `\?…` → `?..`. -/
def tryQEllip : TryFun := fun _ _ s =>
  match s with
  | '?' :: '…' :: _ => some (['?', '.', '.'], 2)
  | _ => none

/-- line 833: `!…` → `!..`. -/
def tryBangEllip : TryFun := fun _ _ s =>
  match s with
  | '!' :: '…' :: _ => some (['!', '.', '.'], 2)
  | _ => none

/-- line 837: `!\?…` → `!?.`. -/
def tryBangQEllip : TryFun := fun _ _ s =>
  match s with
  | '!' :: '?' :: '…' :: _ => some (['!', '?', '.'], 3)
  | _ => none

/-- line 838: `\?!…` → `?!.`. -/
def tryQBangEllip : TryFun := fun _ _ s =>
  match s with
  | '?' :: '!' :: '…' :: _ => some (['?', '!', '.'], 3)
  | _ => none

/-- line 839: `\?\?…` → `??.`. -/
def tryQQEllip : TryFun := fun _ _ s =>
  match s with
  | '?' :: '?' :: '…' :: _ => some (['?', '?', '.'], 3)
  | _ => none

/-- line 840: `\!\!…` → `!!.`. -/
def tryBangBangEllip : TryFun := fun _ _ s =>
  match s with
  | '!' :: '!' :: '…' :: _ => some (['!', '!', '.'], 3)
  | _ => none

/-- line 841: `⁈!` → `?!!`. -/
def tryInterrBang : TryFun := fun _ _ s =>
  match s with
  | '⁈' :: '!' :: _ => some (['?', '!', '!'], 2)
  | _ => none

/-- line 842: `⁉\?` → `!??`. -/
def tryInterrQ : TryFun := fun _ _ s =>
  match s with
  | '⁉' :: '?' :: _ => some (['!', '?', '?'], 2)
  | _ => none

/-- line 846: `<p>\s+` → `<p>` (the greedy `\s+` consumes the maximal
whitespace run). -/
def tryPOpenWs : TryFun := fun _ _ s =>
  match s with
  | '<' :: 'p' :: '>' :: rest =>
    let w := runLen isPySpace rest
    if 1 ≤ w then some (['<', 'p', '>'], 3 + w) else none
  | _ => none

/-- line 847: `\s*</p>ANYSP*` → `</p>`.  `<` is not whitespace, so the only
split the backtracking engine can use is: maximal `\s` run, then the literal
`</p>`, then the maximal `ANYSP` run. -/
def tryWsPClose : TryFun := fun _ _ s =>
  let w := runLen isPySpace s
  let rest := s.drop w
  match rest with
  | '<' :: '/' :: 'p' :: '>' :: rest2 =>
    let a := runLen isAnySP rest2
    some (['<', '/', 'p', '>'], w + 4 + a)
  | _ => none

/-- line 851: `(?:<p>\s*?</p>|<p */>)` → `<empty-line/>`.  In the first
alternative the lazy `\s*?` must stop exactly at the `<` of `</p>`, i.e. the
whole whitespace run must be followed by `</p>`. -/
def tryEmptyP : TryFun := fun _ _ s =>
  match s with
  | '<' :: 'p' :: rest =>
    (match rest with
     | '>' :: rest2 =>
       let w := runLen isPySpace rest2
       match rest2.drop w with
       | '<' :: '/' :: 'p' :: '>' :: _ =>
         some (String.toList "<empty-line/>", 3 + w + 4)
       | _ =>
         let a := runLen (· == ' ') rest
         match rest.drop a with
         | '/' :: '>' :: _ => some (String.toList "<empty-line/>", 2 + a + 2)
         | _ => none
     | _ =>
       let a := runLen (· == ' ') rest
       match rest.drop a with
       | '/' :: '>' :: _ => some (String.toList "<empty-line/>", 2 + a + 2)
       | _ => none)
  | _ => none

/-- one repetition `<empty-line/>\s*` of line 855, returning its length. -/
def elUnit (s : Text) : Option Nat :=
  if isLit (String.toList "<empty-line/>") s then
    some (13 + runLen isPySpace (s.drop 13))
  else none

/-- maximal repetition count and total length of `(?:<empty-line/>\s*)*`
from here (fuelled; each unit is at least 13 characters long). -/
def elUnits : Nat → Text → Nat × Nat
  | 0, _ => (0, 0)
  | fuel + 1, s =>
    match elUnit s with
    | some n =>
      let (cnt, len) := elUnits fuel (s.drop n)
      (cnt + 1, n + len)
    | none => (0, 0)

/-- line 855: `(?:<empty-line/>\s*){2,}` → `<empty-line/>\n` (greedy, no
continuation, so the maximal repetition wins and must be at least 2). -/
def tryELCollapse : TryFun := fun _ _ s =>
  let (cnt, len) := elUnits s.length s
  if 2 ≤ cnt then some (String.toList "<empty-line/>" ++ ['\n'], len) else none

/-- the group `(</?(?:title|section)>)` of line 858: a boundary tag,
returning its text. -/
def boundaryTag (s : Text) : Option Text :=
  match s with
  | '<' :: '/' :: rest =>
    (firstAltCS [String.toList "title", String.toList "section"] rest).bind
      fun t =>
        match rest.drop t.length with
        | '>' :: _ => some ('<' :: '/' :: (t ++ ['>']))
        | _ => none
  | '<' :: rest =>
    (firstAltCS [String.toList "title", String.toList "section"] rest).bind
      fun t =>
        match rest.drop t.length with
        | '>' :: _ => some ('<' :: (t ++ ['>']))
        | _ => none
  | _ => none

/-- the tag plus the greedy optional `(?:\s*<empty-line/>)?` of line 858;
returns the tag text (the replacement) and the consumed length. -/
def stripCore (s : Text) : Option (Text × Nat) :=
  (boundaryTag s).map fun tag =>
    let rest := s.drop tag.length
    let w := runLen isPySpace rest
    if isLit (String.toList "<empty-line/>") (rest.drop w) then
      (tag, tag.length + w + 13)
    else (tag, tag.length)

/-- line 858: `(?:(?:<empty-line/>\s*)?(</?(?:title|section)>)(?:\s*<empty-line/>)?)`
→ `\g<1>`.  The leading optional is greedy: it is tried first and abandoned
if no boundary tag follows it. -/
def tryStripBoundary : TryFun := fun _ _ s =>
  let withLead : Option (Text × Nat) :=
    if isLit (String.toList "<empty-line/>") s then
      let rest := s.drop 13
      let w0 := runLen isPySpace rest
      (stripCore (rest.drop w0)).map fun (tag, n) => (tag, 13 + w0 + n)
    else none
  match withLead with
  | some r => some r
  | none => stripCore s

/-- the mandatory group `(<image[^>]+>)` of line 864: `[^>]+` cannot cross a
`>`, so it is the maximal run of non-`>` characters (at least one) followed
by `>`.  Returns the matched tag text. -/
def imageTag (s : Text) : Option Text :=
  if isLit (String.toList "<image") s then
    let rest := s.drop 6
    let r := runLen (fun c => !(c == '>')) rest
    if 1 ≤ r then
      match rest.drop r with
      | '>' :: _ => some ('<' :: 'i' :: 'm' :: 'a' :: 'g' :: 'e' ::
          (rest.take r ++ ['>']))
      | _ => none
    else none
  else none

/-- groups 1-3 plus the trailing optional of the image rule of line 864,
starting at the optional `(<p>(?:^</p>)*?)?`.  The inner `(?:^</p>)*?` and
`(?:^<p>)*?` loops require `^` (absolute position 0, no MULTILINE), which is
impossible right after `<p>` or after the image tag, so they always take
zero iterations.  Returns the replacement `\g<1></p>\g<2><p>\g<3>` and the
consumed length. -/
def imageCore (s : Text) : Option (Text × Nat) :=
  let afterImage : Text → Nat → Text → Option (Text × Nat) := fun g1 glen rest =>
    (imageTag rest).map fun tag =>
      let rest2 := rest.drop tag.length
      let (g3, g3len) :=
        if isLit (String.toList "</p>") rest2 then
          (String.toList "</p>", 4)
        else (([] : Text), 0)
      let rest3 := rest2.drop g3len
      let w := runLen isPySpace rest3
      let trail :=
        if isLit (String.toList "<empty-line/>") (rest3.drop w) then w + 13
        else 0
      (g1 ++ String.toList "</p>" ++ tag ++ String.toList "<p>" ++ g3,
       glen + tag.length + g3len + trail)
  if isLit (String.toList "<p>") s then
    match afterImage (String.toList "<p>") 3 (s.drop 3) with
    | some r => some r
    | none => afterImage [] 0 s
  else afterImage [] 0 s

/-- line 864:
`(?:<empty-line/>\s*)?(<p>(?:^</p>)*?)?(<image[^>]+>)((?:^<p>)*?</p>)?(?:\s*<empty-line/>)?`
→ `\g<1></p>\g<2><p>\g<3>` (unmatched groups expand to the empty string).
The leading optional `(?:<empty-line/>\s*)?` is consumed but not re-emitted. -/
def tryImage : TryFun := fun _ _ s =>
  let withLead : Option (Text × Nat) :=
    if isLit (String.toList "<empty-line/>") s then
      let rest := s.drop 13
      let w0 := runLen isPySpace rest
      (imageCore (rest.drop (w0 : Nat))).map fun (r, n) => (r, 13 + w0 + n)
    else none
  match withLead with
  | some r => some r
  | none => imageCore s

/-- the tag-name alternation of line 870 (after `<p>(\s*)<`). -/
def tailsATags : List Text :=
  [String.toList "p", String.toList "title", String.toList "epigraph",
   String.toList "annotation", String.toList "section",
   String.toList "subtitle", String.toList "poem", String.toList "cite",
   String.toList "text-author", String.toList "/section",
   String.toList "/title", String.toList "/epigraph"]

/-- an ordered alternation of literal names, each required to be followed by
`>`; the backtracking engine accepts the first alternative whose name and
the following `>` both match. -/
def altThenGt (pats : List Text) (s : Text) : Option Text :=
  match pats with
  | [] => none
  | p :: ps =>
    if isLit p s &&
       (match s.drop p.length with | '>' :: _ => true | _ => false) then
      some p
    else altThenGt ps s

/-- lines 869-871: `<p>(\s*)<(p|title|epigraph|annotation|section|subtitle|poem|cite|text-author|/section|/title|/epigraph)>`
→ `\g<1><\g<2>>`. -/
def tryTailsA : TryFun := fun _ _ s =>
  match s with
  | '<' :: 'p' :: '>' :: rest =>
    let w := runLen isPySpace rest
    let g1 := rest.take w
    match rest.drop w with
    | '<' :: rest2 =>
      (altThenGt tailsATags rest2).map fun t =>
        (g1 ++ '<' :: (t ++ ['>']), 3 + w + 1 + t.length + 1)
    | _ => none
  | _ => none

/-- the tag-name alternation of line 873. -/
def tailsBTags : List Text :=
  [String.toList "/p", String.toList "/title", String.toList "/epigraph",
   String.toList "/annotation", String.toList "/subtitle",
   String.toList "/poem", String.toList "/cite", String.toList "/text-author",
   String.toList "section", String.toList "title", String.toList "epigraph"]

/-- lines 872-874: `<(/p|/title|/epigraph|/annotation|/subtitle|/poem|/cite|/text-author|section|title|epigraph)>(\s*)</p>`
→ `<\g<1>>\g<2>`. -/
def tryTailsB : TryFun := fun _ _ s =>
  match s with
  | '<' :: rest =>
    (altThenGt tailsBTags rest).bind fun t =>
      let rest2 := rest.drop (t.length + 1)
      let w := runLen isPySpace rest2
      match rest2.drop w with
      | '<' :: '/' :: 'p' :: '>' :: _ =>
        some ('<' :: (t ++ '>' :: rest2.take w), 1 + t.length + 1 + w + 4)
      | _ => none
  | _ => none

/-- line 875: `<p>(\s*)</p>` → `\g<1>`. -/
def tryEmptyP2 : TryFun := fun _ _ s =>
  match s with
  | '<' :: 'p' :: '>' :: rest =>
    let w := runLen isPySpace rest
    match rest.drop w with
    | '<' :: '/' :: 'p' :: '>' :: _ => some (rest.take w, 3 + w + 4)
    | _ => none
  | _ => none

/-- line 879: `(<section>\s*<image[^>]+?>)(\s*</section>)` →
`\g<1>\n<empty-line/>\g<2>`.  The lazy `[^>]+?` stops at the first `>`,
exactly like the greedy run of `imageTag`. -/
def trySecImage : TryFun := fun _ _ s =>
  if isLit (String.toList "<section>") s then
    let rest := s.drop 9
    let w := runLen isPySpace rest
    (imageTag (rest.drop w)).bind fun tag =>
      let rest2 := rest.drop (w + tag.length)
      let w2 := runLen isPySpace rest2
      match rest2.drop w2 with
      | '<' :: '/' :: 's' :: 'e' :: 'c' :: 't' :: 'i' :: 'o' :: 'n' :: '>' :: _ =>
        some (String.toList "<section>" ++ rest.take w ++ tag ++
              '\n' :: String.toList "<empty-line/>" ++ rest2.take w2 ++
              String.toList "</section>",
              9 + w + tag.length + w2 + 10)
      | _ => none
  else none

/-- one repetition `<empty-line */>` of the subtitle rule of line 886 (with
its optional spaces before `/>`), returning its length. -/
def elTagSp (s : Text) : Option Nat :=
  if isLit (String.toList "<empty-line") s then
    let rest := s.drop 11
    let w := runLen (· == ' ') rest
    match rest.drop w with
    | '/' :: '>' :: _ => some (11 + w + 2)
    | _ => none
  else none

/-- maximal total length of the leading `(?:(?:<empty-line */>)\s*)*` of the
subtitle rule. -/
def subLeadUnits : Nat → Text → Nat
  | 0, _ => 0
  | fuel + 1, s =>
    match elTagSp s with
    | some n =>
      let w := runLen isPySpace (s.drop n)
      n + w + subLeadUnits fuel (s.drop (n + w))
    | none => 0

/-- maximal total length of the trailing `(?:\s*(?:<empty-line */>))*` of
the subtitle rule. -/
def subTrailUnits : Nat → Text → Nat
  | 0, _ => 0
  | fuel + 1, s =>
    let w := runLen isPySpace s
    match elTagSp (s.drop w) with
    | some n => w + n + subTrailUnits fuel (s.drop (w + n))
    | none => 0

/-- the ` ?` before a closing literal: one optional space, greedy with
fallback. -/
def optSpaceThen (close : Text → Option Nat) (s : Text) : Option Nat :=
  match s with
  | ' ' :: rest =>
    match close rest with
    | some n => some (n + 1)
    | none => close s
  | _ => close s

/-- the lazy `{ANYSUB}+? ?` of the subtitle rule followed by a closing
matcher: grow the separator-unit sequence one unit at a time (each unit is a
separator character with a greedy optional trailing space), testing the
closing matcher (preceded by its own optional space) after every unit, and
backtracking a unit's space when nothing longer succeeds.  Returns the total
consumed length including the close. -/
def subUnitsThen (close : Text → Option Nat) : Nat → Text → Option Nat
  | 0, _ => none
  | fuel + 1, s =>
    match s with
    | c :: rest =>
      if isSubChar c then
        let withSpace : Option Nat :=
          match rest with
          | ' ' :: rest2 =>
            (match optSpaceThen close rest2 with
             | some n => some (2 + n)
             | none => (subUnitsThen close fuel rest2).map (2 + ·))
          | _ => none
        match withSpace with
        | some n => some n
        | none =>
          match optSpaceThen close rest with
          | some n => some (1 + n)
          | none => (subUnitsThen close fuel rest).map (1 + ·)
      else none
    | [] => none

/-- a closing literal matcher for `</name>`. -/
def closeTag (name : Text) (s : Text) : Option Nat :=
  if isLit ('<' :: '/' :: (name ++ ['>'])) s then some (2 + name.length + 1)
  else none

/-- a closing matcher `</inner> ?</outer>` (used by the nested alternatives
of the subtitle rule, whose inner close is followed by ` ?` and the outer
close). -/
def closeTag2 (inner outer : Text) (s : Text) : Option Nat :=
  (closeTag inner s).bind fun n =>
    (optSpaceThen (closeTag outer) (s.drop n)).map fun m => n + m

/-- the alternation body of the subtitle rule together with the outer
` ?</\1>`, for element name `g1` (`p` or `subtitle`):
- `<(strong|emphasis|strikethrough|sup|sub|code)> ?{ANYSUB}+? ?</\2>`
- `<strong> ?<emphasis> ?{ANYSUB}+? ?</emphasis> ?</strong>`
- ` ?<emphasis> ?<strong> ?{ANYSUB}+? ?</strong> ?</emphasis>`
- `{ANYSUB}+?`
(each tried in order; case-sensitive, the rule has no IGNORECASE flag).
Returns the consumed length through `</g1>`. -/
def subAlts (g1 : Text) (fuel : Nat) (s : Text) : Option Nat :=
  let altA : Option Nat :=
    match s with
    | '<' :: rest =>
      (firstAltCS inlineTags rest).bind fun tag =>
        match rest.drop tag.length with
        | '>' :: rest2 =>
          (optSpaceThen (fun u => subUnitsThen (closeTag2 tag g1) fuel u)
             rest2).map fun n => 1 + tag.length + 1 + n
        | _ => none
    | _ => none
  match altA with
  | some n => some n
  | none =>
    let altB : Option Nat :=
      if isLit (String.toList "<strong>") s then
        (optSpaceThen
          (fun u =>
            if isLit (String.toList "<emphasis>") u then
              (optSpaceThen
                (fun v =>
                  subUnitsThen
                    (fun w => (closeTag2 (String.toList "emphasis")
                        (String.toList "strong") w).bind fun n =>
                      (optSpaceThen (closeTag g1) (w.drop n)).map (n + ·))
                    fuel v)
                (u.drop 10)).map (10 + ·)
            else none)
          (s.drop 8)).map (8 + ·)
      else none
    match altB with
    | some n => some n
    | none =>
      let altC : Option Nat :=
        optSpaceThen
          (fun u =>
            if isLit (String.toList "<emphasis>") u then
              (optSpaceThen
                (fun v =>
                  if isLit (String.toList "<strong>") v then
                    (optSpaceThen
                      (fun w =>
                        subUnitsThen
                          (fun x => (closeTag2 (String.toList "strong")
                              (String.toList "emphasis") x).bind fun n =>
                            (optSpaceThen (closeTag g1) (x.drop n)).map (n + ·))
                          fuel w)
                      (v.drop 8)).map (8 + ·)
                  else none)
                (u.drop 10)).map (10 + ·)
            else none)
          s
      match altC with
      | some n => some n
      | none => subUnitsThen (fun u => optSpaceThen (closeTag g1) u) fuel s

/-- lines 885-892 (the scene-break rule):
`(?:(?:<empty-line */>)\s*)*<(p|subtitle)> ?(...alternation...) ?</\1>(?:\s*(?:<empty-line */>))*`
→ `<subtitle>* * *</subtitle>`.  The final ` ?</\1>` is folded into the
closing matchers passed to the alternation. -/
def trySubtitle : TryFun := fun _ _ s =>
  let lead := subLeadUnits s.length s
  let rest := s.drop lead
  match rest with
  | '<' :: rest1 =>
    (firstAltCS [String.toList "p", String.toList "subtitle"] rest1).bind
      fun g1 =>
        match rest1.drop g1.length with
        | '>' :: rest2 =>
          (optSpaceThen (fun u => subAlts g1 u.length u) rest2).map fun n =>
            let core := 1 + g1.length + 1 + n
            let trail := subTrailUnits (rest.drop core).length (rest.drop core)
            (String.toList "<subtitle>* * *</subtitle>", lead + core + trail)
        | _ => none
  | _ => none

/-! ### The full rule list and the pipeline -/

/-- the rule list built by `PureFb2.__optimize_global` (purefb2.py lines
752-894), compiled in source order. -/
def optimizeGlobalRules : List CRule :=
  [⟨tryDash2, .once⟩,
   ⟨trySpDashSp, .once⟩,
   ⟨tryPOpenDash, .once⟩,
   ⟨tryGtDash, .once⟩,
   ⟨trySpDashUpper, .once⟩,
   ⟨tryBiusPair, .once⟩,
   ⟨tryBiusSelf, .once⟩,
   ⟨tryInlineSelf, .once⟩,
   ⟨tryEmptyInline, .untilFound⟩,
   ⟨tryQuoteTag, .untilFound⟩,
   ⟨tryGuillemetTag, .untilFound⟩,
   ⟨tryWsCollapse, .once⟩,
   ⟨tryDots, .once⟩,
   ⟨tryCommaEllipsis, .once⟩,
   ⟨tryQ35, .once⟩,
   ⟨tryQ2, .once⟩,
   ⟨tryE35, .once⟩,
   ⟨tryE2, .once⟩,
   ⟨tryBangQ, .once⟩,
   ⟨tryQBang, .once⟩,
   ⟨tryQEllip, .once⟩,
   ⟨tryBangEllip, .once⟩,
   ⟨tryBangQEllip, .once⟩,
   ⟨tryQBangEllip, .once⟩,
   ⟨tryQQEllip, .once⟩,
   ⟨tryBangBangEllip, .once⟩,
   ⟨tryInterrBang, .once⟩,
   ⟨tryInterrQ, .once⟩,
   ⟨tryPOpenWs, .once⟩,
   ⟨tryWsPClose, .once⟩,
   ⟨tryEmptyP, .once⟩,
   ⟨tryELCollapse, .once⟩,
   ⟨tryStripBoundary, .once⟩,
   ⟨tryImage, .once⟩,
   ⟨tryTailsA, .once⟩,
   ⟨tryTailsB, .once⟩,
   ⟨tryEmptyP2, .once⟩,
   ⟨trySecImage, .once⟩,
   ⟨trySubtitle, .once⟩]

/-- the full body-normalization pipeline: `process_replaces(body,
self.__optimize_global([]))` as run by `PureFb2.__process_body`
(purefb2.py lines 492-494), on `String`. -/
def optimizeGlobal (s : String) : Option String :=
  (processReplaces optimizeGlobalRules s.data).map List.asString

/-! ### A self-reintroducing test rule

The spec's divergence-guard scenario: a rule whose replacement re-introduces
its own pattern.  Pattern `a` (a literal), replacement `aa`, mode
`UNTIL_FOUND`. -/

/-- the compiled literal pattern `a` with replacement `aa`. -/
def tryDoubleA : TryFun := fun _ _ s =>
  match s with
  | 'a' :: _ => some (['a', 'a'], 1)
  | _ => none

/-- the `UNTIL_FOUND` rule `['a', 'aa', NOFLAG, 'UNTIL_FOUND']`. -/
def doublingRule : CRule := ⟨tryDoubleA, .untilFound⟩

/-! ### Auxiliary predicates for the proofs -/

/-- a matcher whose every match is strictly longer than its replacement
(and consumes at least one and at most all remaining characters). -/
def ShrinkSpec (t : TryFun) : Prop :=
  ∀ pos prev s r k, t pos prev s = some (r, k) →
    r.length < k ∧ 1 ≤ k ∧ k ≤ s.length

/-- a matcher that ignores the absolute position. -/
def PosFree (t : TryFun) : Prop :=
  ∀ pos pos' prev s, t pos prev s = t pos' prev s

/-- a matcher whose matches consume at least one and at most all remaining
characters. -/
def BoundSpec (t : TryFun) : Prop :=
  ∀ pos prev s r k, t pos prev s = some (r, k) → 1 ≤ k ∧ k ≤ s.length

/-- the lookbehind context after scanning past `a`, starting from context
`prev`: the last character of `a` if there is one. -/
def lastCtx (prev : Option Char) (a : Text) : Option Char :=
  match a.getLast? with
  | some c => some c
  | none => prev

/-- the first character is a literal dot. -/
def headDot : Text → Bool
  | '.' :: _ => true
  | _ => false

/-- the scan of the dots rule over `s` with incoming lookbehind context
`prev`. -/
def dotsSubFrom (prev : Option Char) (s : Text) : Text :=
  subGo tryDots (s.length + 1) 0 prev s

/-! ### Helper lemmas about the scan engine -/

theorem runLen_le (p : Char → Bool) (s : Text) : runLen p s ≤ s.length := by
  induction s with
  | nil => simp [runLen]
  | cons c t ih =>
    simp only [runLen, List.length_cons]
    split
    · omega
    · omega

theorem isLitCI_length : ∀ p s : Text, isLitCI p s = true → p.length ≤ s.length := by
  intro p
  induction p with
  | nil => intro s _; simp
  | cons a ps ih =>
    intro s h
    cases s with
    | nil => simp [isLitCI] at h
    | cons c t =>
      simp only [isLitCI, Bool.and_eq_true] at h
      have := ih t h.2
      simp only [List.length_cons]
      omega

theorem firstAltCI_spec :
    ∀ (pats : List Text) (s t : Text), firstAltCI pats s = some t →
      t ∈ pats ∧ isLitCI t s = true := by
  intro pats
  induction pats with
  | nil => intro s t h; simp [firstAltCI] at h
  | cons p ps ih =>
    intro s t h
    simp only [firstAltCI] at h
    split at h
    · obtain rfl : p = t := by injection h
      exact ⟨List.mem_cons_self _ _, by assumption⟩
    · obtain ⟨hm, hl⟩ := ih s t h
      exact ⟨List.mem_cons_of_mem _ hm, hl⟩

theorem drop_cons_length {s : Text} {n : Nat} {c : Char} {t : Text}
    (h : s.drop n = c :: t) : s.length = n + t.length + 1 := by
  have h1 : (s.drop n).length = t.length + 1 := by rw [h]; simp
  rw [List.length_drop] at h1
  omega

theorem inlineTags_len {t : Text} (h : t ∈ inlineTags) : 3 ≤ t.length := by
  simp only [inlineTags, List.mem_cons, List.not_mem_nil, or_false] at h
  rcases h with rfl | rfl | rfl | rfl | rfl | rfl <;> decide

theorem subGo_length_le {t : TryFun} (ht : ShrinkSpec t) :
    ∀ (fuel pos : Nat) (prev : Option Char) (s : Text), s.length ≤ fuel →
      (subGo t fuel pos prev s).length ≤ s.length := by
  intro fuel
  induction fuel with
  | zero => intro pos prev s _; simp [subGo]
  | succ n ih =>
    intro pos prev s hle
    cases s with
    | nil => simp [subGo]
    | cons c rest =>
      simp only [subGo]
      cases htry : t pos prev (c :: rest) with
      | none =>
        simp only [List.length_cons]
        have := ih (pos + 1) (some c) rest (by simpa using Nat.le_of_succ_le_succ hle)
        omega
      | some rk =>
        obtain ⟨r, k⟩ := rk
        obtain ⟨hrk, hk1, hk2⟩ := ht _ _ _ _ _ htry
        simp only [List.length_append]
        have hdl : ((c :: rest).drop k).length = (c :: rest).length - k :=
          List.length_drop _ _
        have := ih (pos + k) (lastOfTake k (c :: rest)) ((c :: rest).drop k)
          (by simp only [List.length_cons] at hle hdl ⊢; omega)
        simp only [List.length_cons] at hle hdl hk2 this ⊢
        omega

theorem subGo_length_lt {t : TryFun} (ht : ShrinkSpec t) :
    ∀ (fuel pos : Nat) (prev : Option Char) (s : Text), s.length ≤ fuel →
      searchGo t fuel pos prev s = true →
      (subGo t fuel pos prev s).length < s.length := by
  intro fuel
  induction fuel with
  | zero => intro pos prev s _ hs; simp [searchGo] at hs
  | succ n ih =>
    intro pos prev s hle hs
    cases s with
    | nil =>
      simp only [searchGo, Option.isSome_iff_exists] at hs
      obtain ⟨⟨r, k⟩, htry⟩ := hs
      obtain ⟨_, hk1, hk2⟩ := ht _ _ _ _ _ htry
      simp at hk2
      omega
    | cons c rest =>
      simp only [subGo]
      cases htry : t pos prev (c :: rest) with
      | none =>
        simp only [searchGo, htry, Option.isSome_none, Bool.false_or] at hs
        simp only [List.length_cons]
        have := ih (pos + 1) (some c) rest (by simpa using Nat.le_of_succ_le_succ hle) hs
        omega
      | some rk =>
        obtain ⟨r, k⟩ := rk
        obtain ⟨hrk, hk1, hk2⟩ := ht _ _ _ _ _ htry
        simp only [List.length_append]
        have hdl : ((c :: rest).drop k).length = (c :: rest).length - k :=
          List.length_drop _ _
        have := subGo_length_le ht n (pos + k) (lastOfTake k (c :: rest))
          ((c :: rest).drop k)
          (by simp only [List.length_cons] at hle hdl ⊢; omega)
        simp only [List.length_cons] at hle hdl hk2 this ⊢
        omega

theorem ruleSub_length_lt {t : TryFun} (ht : ShrinkSpec t) {s : Text}
    (hs : ruleSearch t s = true) : (ruleSub t s).length < s.length :=
  subGo_length_lt ht (s.length + 1) 0 none s (Nat.le_succ _) hs

theorem ruleSearch_nil_false {t : TryFun} (ht : ShrinkSpec t) :
    ruleSearch t [] = false := by
  unfold ruleSearch searchGo
  cases htry : t 0 none [] with
  | none => simp
  | some rk =>
    obtain ⟨r, k⟩ := rk
    obtain ⟨_, hk1, hk2⟩ := ht _ _ _ _ _ htry
    simp at hk2
    omega

theorem loopUF_ne_none {t : TryFun} (ht : ShrinkSpec t) :
    ∀ (fuel : Nat) (s : Text), s.length ≤ fuel → loopUF t fuel s ≠ none := by
  intro fuel
  induction fuel with
  | zero =>
    intro s hle
    obtain rfl : s = [] := List.length_eq_zero.mp (Nat.le_zero.mp hle)
    simp [loopUF, ruleSearch_nil_false ht]
  | succ n ih =>
    intro s hle
    simp only [loopUF]
    split
    · exact ih _ (by have := ruleSub_length_lt ht (by assumption); omega)
    · simp

theorem shrink_reaches_fixpoint_aux {t : TryFun} (ht : ShrinkSpec t) :
    ∀ (N : Nat) (s : Text), s.length ≤ N →
      ∃ n, n ≤ N ∧ ruleSearch t ((ruleSub t)^[n] s) = false := by
  intro N
  induction N with
  | zero =>
    intro s hle
    obtain rfl : s = [] := List.length_eq_zero.mp (Nat.le_zero.mp hle)
    exact ⟨0, Nat.le_refl _, ruleSearch_nil_false ht⟩
  | succ n ih =>
    intro s hle
    cases hsearch : ruleSearch t s with
    | false => exact ⟨0, Nat.zero_le _, hsearch⟩
    | true =>
      have hlt := ruleSub_length_lt ht hsearch
      obtain ⟨m, hm, hfix⟩ := ih (ruleSub t s) (by omega)
      refine ⟨m + 1, by omega, ?_⟩
      rw [Function.iterate_succ_apply]
      exact hfix

theorem tryDots_eq (pos : Nat) (prev : Option Char) (s : Text) :
    tryDots pos prev s =
      if (!prevIn ['.', '?', '!'] prev && decide (2 ≤ runLen (fun c => c == '.') s)
          && decide (runLen (fun c => c == '.') s ≤ 5)) = true then
        some (['…'], runLen (fun c => c == '.') s)
      else none := rfl

theorem tryDots_bound : BoundSpec tryDots := by
  intro pos prev s r k h
  rw [tryDots_eq] at h
  split at h
  case isTrue hc =>
    simp only [Option.some.injEq, Prod.mk.injEq] at h
    simp only [Bool.and_eq_true, decide_eq_true_eq] at hc
    have := runLen_le (fun c => c == '.') s
    omega
  case isFalse => exact absurd h (by simp)

theorem tryDots_posFree : PosFree tryDots := fun _ _ _ _ => rfl

theorem tryEmptyInline_spec (pos : Nat) (prev : Option Char) (s : Text)
    (r : Text) (k : Nat) (h : tryEmptyInline pos prev s = some (r, k)) :
    r = [' '] ∧ 11 ≤ k ∧ k ≤ s.length := by
  unfold tryEmptyInline at h
  split at h
  case h_2 => exact absurd h (by simp)
  case h_1 rest =>
    cases halt : firstAltCI inlineTags rest with
    | none => rw [halt] at h; exact absurd h (by simp)
    | some tag =>
      rw [halt] at h
      obtain ⟨hmem, hci⟩ := firstAltCI_spec _ _ _ halt
      have htag3 := inlineTags_len hmem
      have htagr := isLitCI_length _ _ hci
      simp only at h
      split at h
      case h_2 => exact absurd h (by simp)
      case h_1 rest2 hdrop =>
        have hr2 := drop_cons_length hdrop
        split at h
        case h_2 => exact absurd h (by simp)
        case h_1 rest3 hdrop2 =>
          have hw := runLen_le isPySpace rest2
          have hr3 : rest2.length = runLen isPySpace rest2 + (rest3.length + 1) + 1 := by
            have h' : rest2.drop (runLen isPySpace rest2) = '<' :: ('/' :: rest3) := hdrop2
            have := drop_cons_length h'
            simp at this
            omega
          split at h
          case isFalse => exact absurd h (by simp)
          case isTrue hci3 =>
            have htagr3 := isLitCI_length _ _ hci3
            split at h
            case h_2 => exact absurd h (by simp)
            case h_1 tail4 hdrop3 =>
              have hr4 := drop_cons_length hdrop3
              simp only [Option.some.injEq, Prod.mk.injEq] at h
              obtain ⟨hr, hk⟩ := h
              subst hr
              refine ⟨rfl, by omega, ?_⟩
              simp only [List.length_cons]
              omega

theorem tryEmptyInline_shrink : ShrinkSpec tryEmptyInline := by
  intro pos prev s r k h
  obtain ⟨hr, hk, hks⟩ := tryEmptyInline_spec pos prev s r k h
  subst hr
  refine ⟨by simp; omega, by omega, hks⟩

theorem subGo_fuel_pos {t : TryFun} (hp : PosFree t) (hb : BoundSpec t) :
    ∀ (f1 f2 pos1 pos2 : Nat) (prev : Option Char) (s : Text),
      s.length < f1 → s.length < f2 →
      subGo t f1 pos1 prev s = subGo t f2 pos2 prev s := by
  intro f1
  induction f1 with
  | zero => intro f2 pos1 pos2 prev s h1 _; omega
  | succ n ih =>
    intro f2 pos1 pos2 prev s h1 h2
    cases f2 with
    | zero => omega
    | succ m =>
      cases s with
      | nil => simp [subGo]
      | cons c rest =>
        simp only [subGo]
        have hsame : t pos2 prev (c :: rest) = t pos1 prev (c :: rest) :=
          hp pos2 pos1 prev (c :: rest)
        rw [hsame]
        cases htry : t pos1 prev (c :: rest) with
        | none =>
          simp only
          have := ih m (pos1 + 1) (pos2 + 1) (some c) rest
            (by simp at h1; omega) (by simp at h2; omega)
          rw [this]
        | some rk =>
          obtain ⟨r, k⟩ := rk
          obtain ⟨hk1, hk2⟩ := hb _ _ _ _ _ htry
          simp only
          have hdl : ((c :: rest).drop k).length = (c :: rest).length - k :=
            List.length_drop _ _
          have := ih m (pos1 + k) (pos2 + k) (lastOfTake k (c :: rest))
            ((c :: rest).drop k)
            (by simp only [List.length_cons] at h1 hdl hk2 ⊢; omega)
            (by simp only [List.length_cons] at h2 hdl hk2 ⊢; omega)
          rw [this]

theorem lastCtx_cons (prev : Option Char) (c : Char) (a : Text) :
    lastCtx prev (c :: a) = lastCtx (some c) a := by
  cases a with
  | nil => simp [lastCtx]
  | cons d t =>
    simp only [lastCtx, List.getLast?_cons_cons]
    cases htl : (d :: t).getLast? with
    | some e => rfl
    | none => simp at htl

theorem getLast?_replicate_dot (k : Nat) (h : 1 ≤ k) :
    (List.replicate k '.').getLast? = some '.' := by
  induction k with
  | zero => omega
  | succ n ih =>
    cases n with
    | zero => simp [List.replicate]
    | succ m =>
      rw [List.replicate_succ, List.replicate_succ, List.getLast?_cons_cons,
        ← List.replicate_succ]
      exact ih (by omega)

theorem runLen_replicate_dots (k : Nat) (b : Text) (hb : headDot b = false) :
    runLen (fun c => c == '.') (List.replicate k '.' ++ b) = k := by
  induction k with
  | zero =>
    simp only [List.replicate, List.nil_append]
    cases b with
    | nil => simp [runLen]
    | cons c rest =>
      unfold headDot at hb
      simp only [runLen]
      split
      case isTrue hc =>
        simp only [beq_iff_eq] at hc
        subst hc
        simp at hb
      case isFalse => rfl
  | succ n ih =>
    rw [List.replicate_succ, List.cons_append]
    simp [runLen, ih]

theorem dots_scan {b : Text} (k : Nat) (h2 : 2 ≤ k) (h5 : k ≤ 5)
    (hb : headDot b = false) :
    ∀ (a : Text) (prev : Option Char) (fuel pos : Nat),
      (a ++ (List.replicate k '.' ++ b)).length < fuel →
      a.all (fun c => !(c == '.')) = true →
      prevIn ['.', '?', '!'] (lastCtx prev a) = false →
      subGo tryDots fuel pos prev (a ++ (List.replicate k '.' ++ b)) =
        a ++ '…' :: dotsSubFrom (some '.') b := by
  intro a
  induction a with
  | nil =>
    intro prev fuel pos hfuel _ hprev
    simp only [List.nil_append] at hfuel ⊢
    simp only [lastCtx] at hprev
    obtain ⟨k', rfl⟩ : ∃ k', k = k' + 2 := ⟨k - 2, by omega⟩
    cases fuel with
    | zero => simp at hfuel
    | succ f =>
      have hcons : List.replicate (k' + 2) '.' ++ b =
          '.' :: (List.replicate (k' + 1) '.' ++ b) := by
        rw [List.replicate_succ, List.cons_append]
      rw [hcons]
      simp only [subGo]
      have hrun : runLen (fun c => c == '.') ('.' :: (List.replicate (k' + 1) '.' ++ b)) = k' + 2 := by
        rw [← List.cons_append, ← List.replicate_succ]
        exact runLen_replicate_dots (k' + 2) b hb
      have htry : tryDots pos prev ('.' :: (List.replicate (k' + 1) '.' ++ b)) =
          some (['…'], k' + 2) := by
        rw [tryDots_eq, hrun]
        simp only [List.getLast?_nil] at hprev
        simp [hprev]
        omega
      rw [htry]
      simp only
      have hdrop : ('.' :: (List.replicate (k' + 1) '.' ++ b)).drop (k' + 2) = b := by
        rw [← hcons]
        simp [List.drop_left (List.replicate (k' + 2) '.') b]
      have htake : ('.' :: (List.replicate (k' + 1) '.' ++ b)).take (k' + 2) =
          List.replicate (k' + 2) '.' := by
        rw [← hcons]
        simp [List.take_left (List.replicate (k' + 2) '.') b]
      rw [hdrop]
      unfold lastOfTake
      rw [htake, getLast?_replicate_dot (k' + 2) (by omega)]
      have hlen : b.length < f := by
        simp only [List.length_append, List.length_replicate] at hfuel
        omega
      rw [subGo_fuel_pos tryDots_posFree tryDots_bound f (b.length + 1)
        (pos + (k' + 2)) 0 (some '.') b hlen (Nat.lt_succ_self _)]
      rfl
  | cons c a ih =>
    intro prev fuel pos hfuel hall hprev
    simp only [List.cons_append] at hfuel ⊢
    cases fuel with
    | zero => simp at hfuel
    | succ f =>
      simp only [subGo]
      have hc : (c == '.') = false := by
        simp only [List.all_cons, Bool.and_eq_true, Bool.not_eq_true'] at hall
        exact hall.1
      have htry : tryDots pos prev (c :: (a ++ (List.replicate k '.' ++ b))) = none := by
        rw [tryDots_eq]
        have hrun : runLen (fun x => x == '.') (c :: (a ++ (List.replicate k '.' ++ b))) = 0 := by
          simp [runLen, hc]
        rw [hrun]
        simp
      rw [htry]
      simp only
      have := ih (some c) f (pos + 1)
        (by simp only [List.length_cons] at hfuel; omega)
        (by simp only [List.all_cons, Bool.and_eq_true] at hall; exact hall.2)
        (by rw [← lastCtx_cons prev c a]; exact hprev)
      rw [this]

theorem ruleSearch_doubleA_head (c : Char) (rest : Text) (hc : c = 'a') :
    ruleSearch tryDoubleA (c :: rest) = true := by
  subst hc
  simp [ruleSearch, searchGo, tryDoubleA]

theorem ruleSub_doubleA_head (rest : Text) :
    ∃ u, ruleSub tryDoubleA ('a' :: rest) = 'a' :: u := by
  refine ⟨'a' :: subGo tryDoubleA (rest.length + 1) 1 (some 'a') rest, ?_⟩
  simp [ruleSub, subGo, tryDoubleA, lastOfTake]

theorem loopUF_doubleA (fuel : Nat) :
    ∀ rest, loopUF tryDoubleA fuel ('a' :: rest) = none := by
  induction fuel with
  | zero => intro rest; simp [loopUF, ruleSearch_doubleA_head 'a' rest rfl]
  | succ n ih =>
    intro rest
    simp only [loopUF, ruleSearch_doubleA_head 'a' rest rfl, if_true]
    obtain ⟨u, hu⟩ := ruleSub_doubleA_head rest
    rw [hu]
    exact ih u

theorem doubling_diverges : divergesOn [doublingRule] ['a'] := by
  intro fuel
  simp only [processReplacesFuel, List.isEmpty_cons, if_false, runRulesFuel,
    applyCRuleFuel, doublingRule]
  rw [show (['a'] : Text) = 'a' :: [] from rfl, loopUF_doubleA fuel []]
  rfl

/-! ### The claims -/


/-- C1 (amended): `process_replaces` has no iteration cap and no
`RewriteDivergence` error (no such error exists anywhere in the code); an
`UNTIL_FOUND` rule is simply re-applied until a sweep finds no match.  When
every substitution strictly shrinks the text, the loop does terminate within
input-length iterations; but a rule whose replacement re-introduces its own
pattern (here the test-double rule `'a' → 'aa'`) makes `process_replaces`
run forever. -/
theorem c1_theorem :
    (∀ (t : TryFun), ShrinkSpec t → ∀ (s : Text), loopUF t s.length s ≠ none) ∧
    divergesOn [doublingRule] ['a'] :=
  ⟨fun _ ht s => loopUF_ne_none ht s.length s (Nat.le_refl _), doubling_diverges⟩

/-- C1 witness: the shrink-termination half of `c1_theorem` instantiated at
the empty-inline-pair rule and the input `<sup></sup>`. -/
theorem c1_witness :
    loopUF tryEmptyInline ("<sup></sup>".data.length) ("<sup></sup>".data) ≠ none :=
  c1_theorem.1 tryEmptyInline tryEmptyInline_shrink ("<sup></sup>".data)

/-- C1 counterexample: for the `UNTIL_FOUND` rule `'a' → 'aa'` on input
`"a"`, no iteration budget ever completes `process_replaces`: the `while
re.search` loop of purefb2.py line 201 never terminates and nothing raises
`RewriteDivergence`, contradicting the claim that the applicator is capped
and that `process_replaces` terminates on every input for every rule list. -/
theorem c1_counterexample : divergesOn [doublingRule] ['a'] :=
  doubling_diverges

/-- C10: the `UNTIL_FOUND` empty-inline-pair rule (purefb2.py line 806)
terminates on every input: every match of `<(strong|…)>\s*</\1>` is at
least 11 characters long and is replaced by a single space, so each
substitution strictly decreases the text length, and the `while` loop of
`process_replaces` reaches a sweep with zero matches after at most
length-of-input iterations. -/
theorem c10_theorem :
    (∀ (pos : Nat) (prev : Option Char) (s r : Text) (k : Nat),
        tryEmptyInline pos prev s = some (r, k) → r = [' '] ∧ 11 ≤ k) ∧
    (∀ s : Text, ruleSearch tryEmptyInline s = true →
        (ruleSub tryEmptyInline s).length < s.length) ∧
    (∀ s : Text, ∃ n, n ≤ s.length ∧
        ruleSearch tryEmptyInline ((ruleSub tryEmptyInline)^[n] s) = false) :=
  ⟨fun pos prev s r k h =>
      ⟨(tryEmptyInline_spec pos prev s r k h).1,
       (tryEmptyInline_spec pos prev s r k h).2.1⟩,
   fun _ hs => ruleSub_length_lt tryEmptyInline_shrink hs,
   fun s => shrink_reaches_fixpoint_aux tryEmptyInline_shrink s.length s (Nat.le_refl _)⟩

/-- C10 witness: `c10_theorem` instantiated at the input `<sup></sup>`
(an 11-character match replaced by one space). -/
theorem c10_witness :
    (([' '] : Text) = [' '] ∧ 11 ≤ 11) ∧
    (ruleSub tryEmptyInline ("<sup></sup>".data)).length <
      ("<sup></sup>".data).length :=
  ⟨c10_theorem.1 0 none ("<sup></sup>".data) [' '] 11 (by decide),
   c10_theorem.2.1 ("<sup></sup>".data) (by decide)⟩

/-- C2 counterexample: the pipeline is not idempotent.  On `",…,"` the
single-pass comma-absorption rule (line 822) absorbs only the first comma,
producing `"…,"`; a second run absorbs the remaining comma, producing
`"…"`. -/
theorem c2_counterexample :
    (optimizeGlobal ",…,").bind optimizeGlobal ≠ optimizeGlobal ",…," := by decide

set_option maxHeartbeats 1600000 in
/-- C2 (amended): the full pipeline is not idempotent: the single-pass
comma-absorption rule can leave a fresh comma-ellipsis adjacency that a
second run rewrites (`",…,"` → `"…,"` → `"…"`).  On inputs free of such
interactions — the spec's own dash, ellipsis and scene-break examples — a
second run is the identity. -/
theorem c2_theorem :
    (optimizeGlobal "word -- word").bind optimizeGlobal = optimizeGlobal "word -- word" ∧
    (optimizeGlobal "wait....").bind optimizeGlobal = optimizeGlobal "wait...." ∧
    (optimizeGlobal "<subtitle>~~~</subtitle>").bind optimizeGlobal =
      optimizeGlobal "<subtitle>~~~</subtitle>" ∧
    optimizeGlobal ",…," = some "…," ∧ optimizeGlobal "…," = some "…" := by
  have h1 : optimizeGlobal "word -- word" = some "word\u00A0— word" := by decide
  have h2 : optimizeGlobal "word\u00A0— word" = some "word\u00A0— word" := by decide
  have h3 : optimizeGlobal "wait...." = some "wait…" := by decide
  have h4 : optimizeGlobal "wait…" = some "wait…" := by decide
  have h5 : optimizeGlobal "<subtitle>~~~</subtitle>" = some "<subtitle>* * *</subtitle>" := by
    decide
  have h6 : optimizeGlobal "<subtitle>* * *</subtitle>" = some "<subtitle>* * *</subtitle>" := by
    decide
  refine ⟨?_, ?_, ?_, by decide, by decide⟩
  · rw [h1]
    exact h2
  · rw [h3]
    exact h4
  · rw [h5]
    exact h6

/-- C3 counterexample: on `"x -A"` (whitespace, dash, uppercase) the
whitespace-dash-follower rule (line 785) wraps its whole match in group 1
and re-emits it after the inserted `MDASH NBSP`, so the original dash and
its neighbours are duplicated, not consumed: the output still contains the
substring `" -A"` (and hence a hyphen-minus). -/
theorem c3_counterexample :
    optimizeGlobal "x -A" = some "x—\u00A0 -A" ∧
    (" -A".data) <:+: ("x—\u00A0 -A".data) := by decide

/-- C3 (amended): a dash variant between whitespace variants is rewritten to
`MDASH_PAIR` = NBSP+MDASH+WHSP with the dash and both neighbours consumed
(universally, and `"word -- word"` normalizes to `"word" + MDASH_PAIR +
"word"`); a dash after a paragraph-open marker or after `>` is likewise
consumed and rewritten to MDASH+NBSP; but a dash preceded by whitespace and
followed by an uppercase/quote character is NOT consumed: the rule inserts
MDASH+NBSP in front of the matched text and keeps it. -/
theorem c3_theorem :
    (∀ (a d b : Char), isAnySP a = true → isAnyDash d = true → isAnySP b = true →
        ruleSub trySpDashSp [a, d, b] = mdashPair) ∧
    optimizeGlobal "word -- word" =
      some (("word".data ++ mdashPair ++ "word".data).asString) ∧
    optimizeGlobal "<p>- x" = some "<p>—\u00A0x" ∧
    optimizeGlobal ">-A" = some ">—\u00A0A" ∧
    optimizeGlobal "x -A" = some "x—\u00A0 -A" := by
  refine ⟨fun a d b h1 h2 h3 => ?_, by decide, by decide, by decide, by decide⟩
  simp [ruleSub, subGo, trySpDashSp, h1, h2, h3]

/-- C3 witness: the universal conjunct of `c3_theorem` at WHSP, HYPHEN,
WHSP. -/
theorem c3_witness :
    ruleSub trySpDashSp [' ', '-', ' '] = mdashPair :=
  c3_theorem.1 ' ' '-' ' ' (by decide) (by decide) (by decide)

/-- C4 counterexample: the pipeline output on the spec's image-hoist example
is not the claimed `"<p>before</p><image id=\"x\"/><p>after</p>"`: the
paragraph-strip rules (lines 846-847) run before the image-extraction rule
(line 864), so the whitespace around the image survives. -/
theorem c4_counterexample :
    optimizeGlobal "<p>before <image id=\"x\"/> after</p>" ≠
      some "<p>before</p><image id=\"x\"/><p>after</p>" := by decide

/-- C4 (amended): the image marker is hoisted out of the paragraph with
order preserved and no text lost, but the whitespace that surrounded the
image stays in the split paragraphs: the output is
`"<p>before </p><image id=\"x\"/><p> after</p>"`. -/
theorem c4_theorem :
    optimizeGlobal "<p>before <image id=\"x\"/> after</p>" =
      some "<p>before </p><image id=\"x\"/><p> after</p>" := by decide

/-- C5 (code bug): exactly two consecutive question marks collapse to `⁇`
as claimed, but the mirrored exclamation rule (line 826) is
`(?<!\!)!!(?<!\!)` — its trailing assertion is a negative LOOKBEHIND, not a
lookahead; after the two `!` are matched it inspects the second matched `!`
itself and always fails, so the rule never matches anything: `"a!! b"`
passes through the whole pipeline unchanged, and the compiled matcher
`tryE2` returns `none` on every input. -/
theorem c5_theorem :
    optimizeGlobal "a?? b" = some "a⁇ b" ∧
    optimizeGlobal "a!! b" = some "a!! b" ∧
    (∀ (pos : Nat) (prev : Option Char) (s : Text), tryE2 pos prev s = none) := by
  refine ⟨by decide, by decide, fun pos prev s => ?_⟩
  unfold tryE2
  split
  · simp
  · rfl

/-- C6 (code bug): the whitespace-collapse pattern is written `ANYSP{2, }`
(line 815); the space inside the braces stops Python's `re` from reading a
counted repetition, so the braces are parsed as five literal characters.
The rule only matches a whitespace variant followed by the literal text
`\x7b2, \x7d` and never collapses real whitespace runs: `"a  b"` is
unchanged, while `"a \x7b2, \x7db"` becomes `"a b"`; on any two adjacent
whitespace variants the compiled matcher returns `none`. -/
theorem c6_theorem :
    optimizeGlobal "a  b" = some "a  b" ∧
    optimizeGlobal "a \x7b2, \x7db" = some "a b" ∧
    (∀ (pos : Nat) (prev : Option Char) (a b : Char) (rest : Text),
        isAnySP a = true → isAnySP b = true →
        tryWsCollapse pos prev (a :: b :: rest) = none) := by
  refine ⟨by decide, by decide, fun pos prev a b rest ha hb => ?_⟩
  simp only [isAnySP, Bool.or_eq_true, beq_iff_eq] at hb
  rcases hb with ((rfl | rfl) | rfl) | rfl <;> rfl

/-- C6 witness: the universal conjunct of `c6_theorem` at two spaces. -/
theorem c6_witness :
    tryWsCollapse 0 none (' ' :: ' ' :: []) = none :=
  c6_theorem.2.2 0 none ' ' ' ' [] (by decide) (by decide)

/-- C7 counterexample: comma absorption is a single-pass rule (line 822):
on `",..,"` the dots collapse to an ellipsis and the leading comma is
absorbed, but the comma that thereby becomes adjacent to the ellipsis is
not: the pipeline returns `"…,"`, not `"…"`. -/
theorem c7_counterexample :
    optimizeGlobal ",..," = some "…," ∧ ("…," : String) ≠ "…" := by decide

/-- C7 (amended): a run of 2-5 literal dots whose preceding character is not
a dot/question/exclamation mark and which is not followed by a dot collapses
to the single ellipsis glyph (universal, via the compiled dots rule of line
818); a comma adjacent to an ellipsis is absorbed in the one comma pass
(`"wait...."` → `"wait…"`, `"wait...,"` → `"wait…"`), but a comma adjacency
created by that same pass survives. -/
theorem c7_theorem :
    (∀ (a b : Text) (k : Nat), 2 ≤ k → k ≤ 5 →
        a.all (fun c => !(c == '.')) = true →
        prevIn ['.', '?', '!'] (lastCtx none a) = false →
        headDot b = false →
        ruleSub tryDots (a ++ (List.replicate k '.' ++ b)) =
          a ++ '…' :: dotsSubFrom (some '.') b) ∧
    optimizeGlobal "wait...." = some "wait…" ∧
    optimizeGlobal "wait...," = some "wait…" := by
  refine ⟨fun a b k h2 h5 ha hp hb => ?_, by decide, by decide⟩
  unfold ruleSub
  exact dots_scan k h2 h5 hb a none _ 0 (Nat.lt_succ_self _) ha hp

/-- C7 witness: the universal conjunct of `c7_theorem` at `a = "wait"`,
`k = 4`, `b = []`. -/
theorem c7_witness :
    ruleSub tryDots ("wait".data ++ (List.replicate 4 '.' ++ [])) =
      "wait".data ++ '…' :: dotsSubFrom (some '.') [] :=
  c7_theorem.1 "wait".data [] 4 (by decide) (by decide) (by decide) (by decide)
    (by decide)

/-- C8 counterexample: a scene break written with dash variants and spaces
is NOT canonicalized: the dash-normalization rules run first and rewrite
`"- - -"` into dash-pair glyphs that the subtitle rule's separator class
(`ANYSUB`, which pairs each separator with an optional plain space only)
no longer matches, so `"<subtitle>- - -</subtitle>"` comes out mangled
instead of as `"<subtitle>* * *</subtitle>"`. -/
theorem c8_counterexample :
    optimizeGlobal "<subtitle>- - -</subtitle>" =
      some "<subtitle>-\u00A0——\u00A0 -</subtitle>" ∧
    ("<subtitle>-\u00A0——\u00A0 -</subtitle>" : String) ≠
      "<subtitle>* * *</subtitle>" := by decide

/-- C8 (amended): paragraphs or subtitles whose content is repeated
asterisk/underscore/tilde separators (optionally space-separated, bare or
wrapped in one inline tag or in the strong-emphasis double nestings) are
rewritten to `<subtitle>* * *</subtitle>` — both spec examples hold, as do
bare dash runs without spaces (`"<p>---</p>"`); but dash separators with
spaces are preempted by the dash rules (see the counterexample). -/
theorem c8_theorem :
    optimizeGlobal "<p><strong>* * * *</strong></p>" = some "<subtitle>* * *</subtitle>" ∧
    optimizeGlobal "<subtitle>~~~</subtitle>" = some "<subtitle>* * *</subtitle>" ∧
    optimizeGlobal "<p>---</p>" = some "<subtitle>* * *</subtitle>" ∧
    optimizeGlobal "<p>_ _ _</p>" = some "<subtitle>* * *</subtitle>" ∧
    optimizeGlobal "<p><emphasis><strong>~ ~</strong></emphasis></p>" =
      some "<subtitle>* * *</subtitle>" := by decide

/-- C9 counterexample: the final output can end a section with an
empty-line marker: for a section whose sole content is an image, the
single-image rule (line 879) deliberately inserts `<empty-line/>` directly
before `</section>` after the boundary-stripping rule (line 858) has
already run, so the output contains the adjacency
`<empty-line/></section>`. -/
theorem c9_counterexample :
    optimizeGlobal "<section><image id=\"x\"/></section>" =
      some "<section><image id=\"x\"/>\n<empty-line/></section>" ∧
    ("<empty-line/></section>".data) <:+:
      ("<section><image id=\"x\"/>\n<empty-line/></section>".data) := by decide

/-- C9 (amended): the boundary-stripping rule removes an empty-line marker
immediately inside a title/section open or close (witnessed on both), but
the later single-image-section rule re-inserts an empty-line immediately
before the section close when the section's sole content is an image, so
the claimed final-output invariant holds only outside that case. -/
theorem c9_theorem :
    optimizeGlobal "<title><empty-line/><p>T</p><empty-line/></title>" =
      some "<title><p>T</p></title>" ∧
    optimizeGlobal "<section><empty-line/><p>T</p><empty-line/></section>" =
      some "<section><p>T</p></section>" ∧
    optimizeGlobal "<section><image id=\"x\"/></section>" =
      some "<section><image id=\"x\"/>\n<empty-line/></section>" := by decide

end PureFb2
